import Mathlib

/-!
Shallow embedding of the rate-limiter service (TypeScript + Lua sources) and
verification of its specification claims.

Source files embedded here:
- src/src/algorithms/fixed-window.ts   (FixedWindowLimiter.check, Lua script)
- src/src/algorithms/sliding-window.ts (SlidingWindowLimiter.check, TokenBucketLimiter.check)
- src/src/services/rate-limiter.ts     (RateLimiterService.check)
- src/src/cache/rule-service.ts        (RuleCache, RuleService)
- src/src/webhook/notifier.ts          (WebhookNotifier.shouldNotify)
- models (zod schemas for CheckRequest/CheckResult/Rule/KeyConfig)

Conventions of the embedding:
- JavaScript numbers/Lua numbers carrying fractional values (token counts,
  weighted window estimates, percentages) are embedded as `ℚ`; integer-valued
  quantities (timestamps in ms, limits, window seconds, counters) as `Nat`/`Int`.
- The atomic store is embedded per subject key: each algorithm's Lua script
  touches only keys derived from one subject, so the store is the family of
  values at those derived keys (fixed window: windowStart ↦ counter,
  sliding window: windowStart ↦ counter with possibly negative windowStart,
  token bucket: the optional (tokens, last_update) hash).  `EXPIRE` calls set
  TTLs, which no claim observes; they are not modelled.
- `Date.now()` is an explicit `now` parameter (milliseconds).
-/

namespace RateLimiter

/-- Algorithm enum from the zod schema `z.enum(['token_bucket', 'fixed_window',
'sliding_window'])` in the models. -/
inductive AlgorithmType
  | token_bucket
  | fixed_window
  | sliding_window
deriving Repr, DecidableEq

/-- CheckResultSchema from the models: `allowed`, `limit`, `remaining`,
`resetAt` (a Date, embedded as its epoch-milliseconds value), optional
`retryAfter` in seconds, `currentUsage`. -/
structure CheckResult where
  allowed : Bool
  limit : Nat
  remaining : Int
  resetAt : Int
  retryAfter : Option Int
  currentUsage : Int
deriving Repr, DecidableEq

/-! ### Fixed window (src/src/algorithms/fixed-window.ts)

The Lua script reads the counter at `rl:fixed_window:<key>:<windowStart>`;
for a fixed subject key the reachable store is the family
windowStart ↦ counter, embedded as `Nat → Option Nat` (absent key = `none`,
`GET` returning false defaults the count to 0). -/

abbrev FwStore : Type := Nat → Option Nat

/-- FixedWindowLimiter.check (fixed-window.ts lines 14-64) together with its
Lua script: `windowStart = floor(now / (window*1000)) * (window*1000)`; read
`current` (default 0); if `current < limit` increment and allow, else deny
leaving the counter untouched; `remaining = max(0, limit - new_count)`,
`resetAt = windowStart + window*1000`,
`retryAfter = ceil((resetAt - now)/1000)` when denied. -/
def FixedWindowLimiter.check (store : FwStore) (now limit window : Nat) :
    CheckResult × FwStore :=
  let windowStart := now / (window * 1000) * (window * 1000)
  let current := (store windowStart).getD 0
  let resetAt := windowStart + window * 1000
  if current < limit then
    let newCount := current + 1
    ({ allowed := true
       limit := limit
       remaining := max 0 ((limit : Int) - (newCount : Int))
       resetAt := (resetAt : Int)
       retryAfter := none
       currentUsage := (newCount : Int) },
     fun w => if w = windowStart then some newCount else store w)
  else
    ({ allowed := false
       limit := limit
       remaining := max 0 ((limit : Int) - (current : Int))
       resetAt := (resetAt : Int)
       retryAfter := some ⌈(((resetAt : ℚ) - (now : ℚ)) / 1000 : ℚ)⌉
       currentUsage := (current : Int) },
     store)

/-- Iterated fixed-window checks on one subject key starting from an absent
counter (empty store): `run limit window time n` is the store after the first
`n` checks, the i-th check happening at time `time i`. -/
def FixedWindowLimiter.run (limit window : Nat) (time : Nat → Nat) : Nat → FwStore
  | 0 => fun _ => none
  | n + 1 =>
    (FixedWindowLimiter.check (FixedWindowLimiter.run limit window time n)
      (time n) limit window).2

/-! ### Sliding window (src/src/algorithms/sliding-window.ts, SlidingWindowLimiter)

The script reads counters at `rl:sliding_window:<key>:<currentWindow>` and
`rl:sliding_window:<key>:<previousWindow>`; `previousWindow` can be negative
in the first window of the epoch, so the per-subject store is `Int → Option Nat`. -/

abbrev SwStore : Type := Int → Option Nat

/-- SlidingWindowLimiter.check (sliding-window.ts lines 14-74) with its Lua
script: `elapsed = (now - current_window) / (window*1000)`,
`weighted_previous = previous_count * (1 - elapsed)`,
`estimated_count = weighted_previous + current_count`; if
`estimated_count < limit` increment the current-window counter and allow,
else deny without mutation.  The script returns `math.floor(estimated_count)`
and the TS wrapper computes `remaining = max(0, limit - estimatedCount)`,
`resetAt = currentWindow + window*1000`,
`retryAfter = ceil((resetAt - now)/1000)` when denied,
`currentUsage = estimatedCount`. -/
def SlidingWindowLimiter.check (store : SwStore) (now limit window : Nat) :
    CheckResult × SwStore :=
  let currentWindow : Int := ((now / (window * 1000) * (window * 1000) : Nat) : Int)
  let previousWindow : Int := currentWindow - ((window * 1000 : Nat) : Int)
  let currentCount := (store currentWindow).getD 0
  let previousCount := (store previousWindow).getD 0
  let elapsed : ℚ := ((now : ℚ) - (currentWindow : ℚ)) / ((window * 1000 : Nat) : ℚ)
  let weightedPrevious : ℚ := (previousCount : ℚ) * (1 - elapsed)
  let estimatedCount : ℚ := weightedPrevious + (currentCount : ℚ)
  let resetAt : Int := currentWindow + ((window * 1000 : Nat) : Int)
  if estimatedCount < (limit : ℚ) then
    ({ allowed := true
       limit := limit
       remaining := max 0 ((limit : Int) - ⌊estimatedCount⌋)
       resetAt := resetAt
       retryAfter := none
       currentUsage := ⌊estimatedCount⌋ },
     fun w => if w = currentWindow then some (currentCount + 1) else store w)
  else
    ({ allowed := false
       limit := limit
       remaining := max 0 ((limit : Int) - ⌊estimatedCount⌋)
       resetAt := resetAt
       retryAfter := some ⌈(((resetAt : ℚ) - (now : ℚ)) / 1000 : ℚ)⌉
       currentUsage := ⌊estimatedCount⌋ },
     store)

/-! ### Token bucket (src/src/algorithms/sliding-window.ts, TokenBucketLimiter)

The script reads the hash at `rl:token_bucket:<key>` holding fields `tokens`
(a float) and `last_update` (ms timestamp); the per-subject state is
`Option (ℚ × Nat)`, `none` when the hash is absent (HMGET returns nils, so
`tokens == nil` initializes `tokens = limit`, `last_update = now`). -/

abbrev TbState : Type := Option (ℚ × Nat)

/-- TokenBucketLimiter.check (sliding-window.ts lines 89-148) with its Lua
script: `rate = limit / window`; `elapsed = (now - last_update) / 1000`;
`tokens = min(limit, tokens + elapsed * rate)`; if `tokens >= 1` subtract one
token and allow, else deny; the new `tokens`/`last_update = now` are persisted
in both branches (HMSET is unconditional).  The script returns
`math.floor(remaining)`; the TS wrapper sets `resetAt = now + window*1000`,
`retryAfter = ceil((1 - tokens) / rate)` when denied, and
`currentUsage = limit - remaining`. -/
def TokenBucketLimiter.check (state : TbState) (now limit window : Nat) :
    CheckResult × TbState :=
  let rate : ℚ := (limit : ℚ) / (window : ℚ)
  let tokens0 : ℚ := match state with | none => (limit : ℚ) | some (t, _) => t
  let lastUpdate : Nat := match state with | none => now | some (_, u) => u
  let elapsed : ℚ := ((now : ℚ) - (lastUpdate : ℚ)) / 1000
  let tokens1 : ℚ := min (limit : ℚ) (tokens0 + elapsed * rate)
  if 1 ≤ tokens1 then
    ({ allowed := true
       limit := limit
       remaining := ⌊(tokens1 - 1 : ℚ)⌋
       resetAt := ((now + window * 1000 : Nat) : Int)
       retryAfter := none
       currentUsage := (limit : Int) - ⌊(tokens1 - 1 : ℚ)⌋ },
     some (tokens1 - 1, now))
  else
    ({ allowed := false
       limit := limit
       remaining := ⌊tokens1⌋
       resetAt := ((now + window * 1000 : Nat) : Int)
       retryAfter := some ⌈((1 - tokens1) / rate : ℚ)⌉
       currentUsage := (limit : Int) - ⌊tokens1⌋ },
     some (tokens1, now))

/-- Sequential token-bucket checks on one subject: runs one check per
timestamp in `times`, threading the persisted bucket state, and returns the
list of results together with the final state. -/
def TokenBucketLimiter.process (limit window : Nat) :
    List Nat → TbState → List CheckResult × TbState
  | [], st => ([], st)
  | t :: ts, st =>
    let step := TokenBucketLimiter.check st t limit window
    let rest := TokenBucketLimiter.process limit window ts step.2
    (step.1 :: rest.1, rest.2)

/-! ### Rule model (zod schemas in the models) -/

/-- KeyConfigSchema `type` enum. -/
inductive KeyType
  | user
  | ip
  | endpoint
  | custom
deriving Repr, DecidableEq

/-- KeyConfigSchema: `{type, value}` where `value` is a specific value or
`"*"` for all. -/
structure KeyConfig where
  type : KeyType
  value : String
deriving Repr, DecidableEq

/-- RuleSchema from the models.  `createdAt`/`updatedAt` are optional Dates,
embedded as optional epoch-milliseconds. -/
structure Rule where
  id : String
  name : String
  algorithm : AlgorithmType
  limit : Nat
  window : Nat
  keys : List KeyConfig
  webhookUrl : Option String
  thresholds : List Nat
  enabled : Bool
  createdAt : Option Nat
  updatedAt : Option Nat
deriving Repr, DecidableEq

/-- CreateRuleSchema: RuleSchema without `id`/`createdAt`/`updatedAt`, with an
optional client-supplied `id`; `thresholds` and `enabled` may be left for the
service to default (`request.thresholds ?? [80,90,100]`,
`request.enabled ?? true`). -/
structure CreateRuleRequest where
  id : Option String
  name : String
  algorithm : AlgorithmType
  limit : Nat
  window : Nat
  keys : List KeyConfig
  webhookUrl : Option String
  thresholds : Option (List Nat)
  enabled : Option Bool
deriving Repr, DecidableEq

/-- RuleSchema.parse succeeding, as a boolean validity check on the structural
invariants: `name` length in [1,255], `limit` and `window` positive integers,
`keys` non-empty, every threshold in [0,100] (the lower bound is implicit in
`Nat`).  The `id` uuid format and the `webhookUrl` url format are regex checks
abstracted to non-emptiness of `id` (a uuid is never the empty string). -/
def RuleSchema.check (r : Rule) : Bool :=
  r.id != "" && r.name != "" && decide (r.name.length ≤ 255) &&
  decide (0 < r.limit) && decide (0 < r.window) && !r.keys.isEmpty &&
  r.thresholds.all (fun t => decide (t ≤ 100))

/-! ### RuleCache (src/src/cache/rule-service.ts, class RuleCache)

`Map<string, Rule>` is embedded as an association list in insertion order:
`Map.set` replaces in place when the key exists and appends otherwise, and
`Map.values()` iterates in insertion order. -/

abbrev RuleMap : Type := List (String × Rule)

/-- JS `Map.get`. -/
def RuleMap.get (m : RuleMap) (id : String) : Option Rule :=
  (List.find? (fun p => p.1 == id) m).map (fun p => p.2)

/-- JS `Map.set`: update in place if the key is present, else append. -/
def RuleMap.set (m : RuleMap) (rule : Rule) : RuleMap :=
  if m.any (fun p => p.1 == rule.id) then
    m.map (fun p => if p.1 == rule.id then (rule.id, rule) else p)
  else
    m ++ [(rule.id, rule)]

/-- JS `Array.from(map.values())`. -/
def RuleMap.values (m : RuleMap) : List Rule :=
  m.map (fun p => p.2)

/-- Whether one rule matches a subject key: `rule.keys.some(keyConfig =>
keyConfig.value === '*' || key.includes(keyConfig.value))`
(rule-service.ts lines 32-36).  JS `String.includes` is substring
containment, embedded via `List.IsInfix` on the character data. -/
def ruleMatchesKey (key : String) (rule : Rule) : Bool :=
  rule.keys.any (fun keyConfig =>
    keyConfig.value == "*" || decide (keyConfig.value.data <:+: key.data))

/-- RuleCache.findByKey (rule-service.ts lines 28-38): first rule among the
cached values that is enabled and matches the key; the `endpoint` parameter is
declared but unused (`_endpoint`). -/
def RuleCache.findByKey (m : RuleMap) (key : String) (_endpoint : Option String) :
    Option Rule :=
  (RuleMap.values m).find? (fun rule => rule.enabled && ruleMatchesKey key rule)

/-! ### RuleService (src/src/cache/rule-service.ts, class RuleService)

State: the in-memory RuleCache plus the durable store.  The store persists
`JSON.stringify(rule)` under `"rule:" ++ id`; serialization is embedded as the
identity (round-tripping a Rule through JSON), so the store is an association
list `String × Rule`. -/

structure RuleServiceState where
  cache : RuleMap
  store : List (String × Rule)
deriving Repr, DecidableEq

/-- Overwriting `storage.set` on the durable store. -/
def storeSet (st : List (String × Rule)) (k : String) (v : Rule) :
    List (String × Rule) :=
  if st.any (fun p => p.1 == k) then
    st.map (fun p => if p.1 == k then (k, v) else p)
  else
    st ++ [(k, v)]

/-- `storage.get` on the durable store. -/
def storeGet (st : List (String × Rule)) (k : String) : Option Rule :=
  (List.find? (fun p => p.1 == k) st).map (fun p => p.2)

/-- RuleService.createRule (rule-service.ts lines 54-80): build the rule from
the request with `id = request.id || uuidv4()` (uuid generation passed in as
`freshId`), fresh `createdAt`/`updatedAt`, `enabled = request.enabled ?? true`,
`thresholds = request.thresholds ?? [80,90,100]`; validate with
`RuleSchema.parse` (`none` models the parse throwing); store in the cache and
persist to the durable store. -/
def RuleService.createRule (st : RuleServiceState) (request : CreateRuleRequest)
    (freshId : String) (now : Nat) : Option (Rule × RuleServiceState) :=
  let rule : Rule :=
    { id := match request.id with
        | some i => if i != "" then i else freshId
        | none => freshId
      name := request.name
      algorithm := request.algorithm
      limit := request.limit
      window := request.window
      keys := request.keys
      webhookUrl := request.webhookUrl
      thresholds := request.thresholds.getD [80, 90, 100]
      enabled := request.enabled.getD true
      createdAt := some now
      updatedAt := some now }
  if RuleSchema.check rule then
    some (rule,
      { cache := RuleMap.set st.cache rule
        store := storeSet st.store ("rule:" ++ rule.id) rule })
  else
    none

/-- RuleService.getRule (rule-service.ts lines 85-100): cache first, then the
durable store, populating the cache on a store hit. -/
def RuleService.getRule (st : RuleServiceState) (id : String) :
    Option Rule × RuleServiceState :=
  match RuleMap.get st.cache id with
  | some rule => (some rule, st)
  | none =>
    match storeGet st.store ("rule:" ++ id) with
    | none => (none, st)
    | some rule => (some rule, { st with cache := RuleMap.set st.cache rule })

/-- RuleService.getAllRules (rule-service.ts lines 105-107): cache-only. -/
def RuleService.getAllRules (st : RuleServiceState) : List Rule :=
  RuleMap.values st.cache

/-- RuleService.findMatchingRule (rule-service.ts lines 160-162). -/
def RuleService.findMatchingRule (st : RuleServiceState) (key : String)
    (endpoint : Option String) : Option Rule :=
  RuleCache.findByKey st.cache key endpoint

/-! ### Orchestrator (src/src/services/rate-limiter.ts, RateLimiterService.check) -/

/-- CheckRequestSchema from the models: required non-empty `key`, optional
`endpoint`, optional uuid `ruleId`, optional inline `algorithm`/`limit`/`window`
(positive integers). -/
structure CheckRequest where
  key : String
  endpoint : Option String
  ruleId : Option String
  algorithm : Option AlgorithmType
  limit : Option Nat
  window : Option Nat
deriving Repr, DecidableEq

/-- Consequences of CheckRequestSchema.parse succeeding that the orchestrator
relies on: `key` non-empty (`z.string().min(1)`), a supplied `ruleId` is a
uuid and hence non-empty (`z.string().uuid()`), supplied inline `limit` and
`window` are positive (`z.number().int().positive()`).  A supplied `endpoint`
is only constrained to be a string (`z.string().optional()`), so it may be
empty. -/
def CheckRequest.valid (r : CheckRequest) : Prop :=
  r.key ≠ "" ∧
  (∀ s, r.ruleId = some s → s ≠ "") ∧
  (∀ n, r.limit = some n → 0 < n) ∧
  (∀ n, r.window = some n → 0 < n)

instance (r : CheckRequest) : Decidable r.valid := by
  unfold CheckRequest.valid
  infer_instance

/-- Errors thrown by RateLimiterService.check: `Rule not found: <id>`,
`Rule is disabled: <id>`, `No matching rule found and no inline parameters
provided`. -/
inductive CheckError
  | ruleNotFound (ruleId : String)
  | ruleDisabled (ruleId : String)
  | noMatchingRule
deriving Repr, DecidableEq

/-- JS truthiness of an optional string (`undefined` and `""` are falsy). -/
def truthyStr : Option String → Bool
  | none => false
  | some s => s != ""

/-- JS truthiness of an optional number (`undefined` and `0` are falsy). -/
def truthyNum : Option Nat → Bool
  | none => false
  | some n => n != 0

/-- JS truthiness of an optional algorithm name: the enum values are non-empty
strings, so a supplied algorithm is always truthy. -/
def truthyAlg : Option AlgorithmType → Bool
  | none => false
  | some _ => true

/-- Parameter resolution of RateLimiterService.check (rate-limiter.ts lines
19-58): `if (request.ruleId)` look the rule up, failing on a missing or
disabled rule; `else if (request.algorithm && request.limit && request.window)`
use the inline parameters; else fall back to
`ruleService.findMatchingRule(request.key, request.endpoint)`, failing when it
finds nothing.  The injected RuleService is abstracted by its two observable
reads `getRule` and `findMatching`. -/
def RateLimiterService.resolve (getRule : String → Option Rule)
    (findMatching : String → Option String → Option Rule)
    (request : CheckRequest) :
    Except CheckError (AlgorithmType × Nat × Nat) :=
  if truthyStr request.ruleId then
    let rid := request.ruleId.getD ""
    match getRule rid with
    | none => .error (.ruleNotFound rid)
    | some rule =>
      if !rule.enabled then .error (.ruleDisabled rid)
      else .ok (rule.algorithm, rule.limit, rule.window)
  else if truthyAlg request.algorithm && truthyNum request.limit &&
      truthyNum request.window then
    .ok (request.algorithm.getD .fixed_window, request.limit.getD 0,
      request.window.getD 0)
  else
    match findMatching request.key request.endpoint with
    | none => .error .noMatchingRule
    | some rule => .ok (rule.algorithm, rule.limit, rule.window)

/-- Subject-key composition of RateLimiterService.check (rate-limiter.ts lines
63-65): `` request.endpoint ? `${request.key}:${request.endpoint}` :
request.key ``. -/
def RateLimiterService.buildFullKey (key : String) (endpoint : Option String) :
    String :=
  if truthyStr endpoint then key ++ ":" ++ endpoint.getD "" else key

/-! ### Webhook notifier (src/src/webhook/notifier.ts) -/

/-- WebhookNotifier.shouldNotify (notifier.ts lines 106-115):
`percentage = currentUsage / limit * 100`; keep the thresholds with
`percentage >= t`, sort them descending (`sort((a, b) => b - a)`), and return
the first, or null when none crossed. -/
def WebhookNotifier.shouldNotify (currentUsage limit : Nat)
    (thresholds : List Nat) : Option Nat :=
  let percentage : ℚ := (currentUsage : ℚ) / (limit : ℚ) * 100
  let crossedThresholds :=
    (thresholds.filter (fun t : Nat => decide ((t : ℚ) ≤ percentage))).mergeSort
      (fun a b => decide (b ≤ a))
  crossedThresholds.head?

/-! ### Theorems -/

/-- Unfolds `Option.getD` of the indicator used for fixed-window counters. -/
lemma getD_counter (i : Nat) :
    (if i = 0 then none else some i).getD 0 = i := by
  cases i <;> simp

/-- After `i ≤ L` fixed-window checks all falling in the window of index `n0`
(starting from an absent counter), the counter at
`windowStart = n0 * (W * 1000)` is `i` (absent when `i = 0`). -/
lemma fw_run_at (L W n0 : Nat) (time : Nat → Nat)
    (ht : ∀ i, i ≤ L → time i / (W * 1000) = n0) :
    ∀ i, i ≤ L → FixedWindowLimiter.run L W time i (n0 * (W * 1000)) =
      if i = 0 then none else some i := by
  intro i
  induction i with
  | zero =>
    intro _
    simp [FixedWindowLimiter.run]
  | succ n ih =>
    intro hn
    have hnL : n ≤ L := Nat.le_of_succ_le hn
    show (FixedWindowLimiter.check (FixedWindowLimiter.run L W time n) (time n)
      L W).2 (n0 * (W * 1000)) = _
    simp only [FixedWindowLimiter.check, ht n hnL, ih hnL, getD_counter]
    rw [if_pos (show n < L from hn)]
    simp

/-- Away from the window of index `n0`, the same run leaves every counter
absent. -/
lemma fw_run_off (L W n0 : Nat) (time : Nat → Nat)
    (ht : ∀ i, i ≤ L → time i / (W * 1000) = n0) :
    ∀ i, i ≤ L → ∀ w, w ≠ n0 * (W * 1000) →
      FixedWindowLimiter.run L W time i w = none := by
  intro i
  induction i with
  | zero =>
    intro _ w _
    simp [FixedWindowLimiter.run]
  | succ n ih =>
    intro hn w hw
    have hnL : n ≤ L := Nat.le_of_succ_le hn
    show (FixedWindowLimiter.check (FixedWindowLimiter.run L W time n) (time n)
      L W).2 w = _
    simp only [FixedWindowLimiter.check, ht n hnL,
      fw_run_at L W n0 time ht n hnL, getD_counter]
    rw [if_pos (show n < L from hn)]
    simp only [if_neg hw]
    exact ih hnL w hw

/-- C1: for every positive limit `L` and window `W`, and every sequence of
checks on one subject key all falling inside the single window of index `n0`
(starting from an absent counter), the first `L` checks are allowed, the
`(L+1)`-th is denied with a positive `retryAfter` and leaves the store
unchanged, and a check in any other window (in particular just after
`resetAt`) is allowed again. -/
theorem fixedWindow_window_quota (L W n0 : Nat) (hL : 0 < L) (hW : 0 < W)
    (time : Nat → Nat) (ht : ∀ i, i ≤ L → time i / (W * 1000) = n0) :
    (∀ i, i < L →
      (FixedWindowLimiter.check (FixedWindowLimiter.run L W time i) (time i)
        L W).1.allowed = true) ∧
    (FixedWindowLimiter.check (FixedWindowLimiter.run L W time L) (time L)
        L W).1.allowed = false ∧
    (∃ q, (FixedWindowLimiter.check (FixedWindowLimiter.run L W time L)
        (time L) L W).1.retryAfter = some q ∧ 0 < q) ∧
    (FixedWindowLimiter.check (FixedWindowLimiter.run L W time L) (time L)
        L W).2 = FixedWindowLimiter.run L W time L ∧
    (∀ t2, t2 / (W * 1000) ≠ n0 →
      (FixedWindowLimiter.check (FixedWindowLimiter.run L W time (L + 1)) t2
        L W).1.allowed = true) := by
  have hM : 0 < W * 1000 := by positivity
  have hat := fw_run_at L W n0 time ht
  have hoff := fw_run_off L W n0 time ht
  refine ⟨?_, ?_, ?_, ?_, ?_⟩
  · intro i hi
    simp only [FixedWindowLimiter.check, ht i (Nat.le_of_lt hi),
      hat i (Nat.le_of_lt hi), getD_counter]
    rw [if_pos hi]
  · simp only [FixedWindowLimiter.check, ht L le_rfl, hat L le_rfl,
      getD_counter]
    rw [if_neg (lt_irrefl L)]
  · simp only [FixedWindowLimiter.check, ht L le_rfl, hat L le_rfl,
      getD_counter]
    rw [if_neg (lt_irrefl L)]
    refine ⟨_, rfl, ?_⟩
    rw [Int.ceil_pos]
    have hlt : time L < n0 * (W * 1000) + W * 1000 := by
      have hdm := Nat.div_add_mod (time L) (W * 1000)
      have hmod : time L % (W * 1000) < W * 1000 := Nat.mod_lt _ hM
      have heq : W * 1000 * (time L / (W * 1000)) = W * 1000 * n0 := by
        rw [ht L le_rfl]
      have hce : n0 * (W * 1000) = W * 1000 * n0 := Nat.mul_comm _ _
      omega
    have hnum : (0 : ℚ) <
        ((n0 * (W * 1000) + W * 1000 : Nat) : ℚ) - (time L : ℚ) := by
      rw [sub_pos]
      exact_mod_cast hlt
    positivity
  · simp only [FixedWindowLimiter.check, ht L le_rfl, hat L le_rfl,
      getD_counter]
    rw [if_neg (lt_irrefl L)]
  · intro t2 ht2
    have hstep : FixedWindowLimiter.run L W time (L + 1) =
        FixedWindowLimiter.run L W time L := by
      show (FixedWindowLimiter.check (FixedWindowLimiter.run L W time L)
        (time L) L W).2 = _
      simp only [FixedWindowLimiter.check, ht L le_rfl, hat L le_rfl,
        getD_counter]
      rw [if_neg (lt_irrefl L)]
    rw [hstep]
    have hne : t2 / (W * 1000) * (W * 1000) ≠ n0 * (W * 1000) := by
      intro heq
      exact ht2 (Nat.eq_of_mul_eq_mul_right hM heq)
    simp only [FixedWindowLimiter.check,
      hoff L le_rfl (t2 / (W * 1000) * (W * 1000)) hne, Option.getD_none]
    rw [if_pos hL]

/-- Witness for C1 at `L = 2`, `W = 1`, all checks at time 0 (window index 0),
with the fresh-window check at time 1000. -/
theorem fixedWindow_window_quota_witness :
    (FixedWindowLimiter.check (FixedWindowLimiter.run 2 1 (fun _ => 0) 0) 0
      2 1).1.allowed = true ∧
    (FixedWindowLimiter.check (FixedWindowLimiter.run 2 1 (fun _ => 0) 2) 0
      2 1).1.allowed = false ∧
    (FixedWindowLimiter.check (FixedWindowLimiter.run 2 1 (fun _ => 0) 3) 1000
      2 1).1.allowed = true := by
  have h := fixedWindow_window_quota 2 1 0 (by decide) (by decide)
    (fun _ => 0) (fun i _ => by simp)
  exact ⟨h.1 0 (by decide), h.2.1, h.2.2.2.2 1000 (by decide)⟩

/-- Spec formula (§4.1 Sliding Window): the start of the current window,
`floor(now / (window·1000)) · (window·1000)`. -/
def swCurrentWindow (now W : Nat) : Int :=
  ((now / (W * 1000) * (W * 1000) : Nat) : Int)

/-- Spec formula: `elapsed = (now − currentWindowStart) / (window·1000)`. -/
def swElapsed (now W : Nat) : ℚ :=
  ((now : ℚ) - ((swCurrentWindow now W : Int) : ℚ)) / ((W * 1000 : Nat) : ℚ)

/-- Spec formula: `estimated = previousCount × (1 − elapsed) + currentCount`,
reading the two adjacent window counters from the store. -/
def swEstimated (store : SwStore) (now W : Nat) : ℚ :=
  ((store (swCurrentWindow now W - ((W * 1000 : Nat) : Int))).getD 0 : ℚ) *
    (1 - swElapsed now W) +
  ((store (swCurrentWindow now W)).getD 0 : ℚ)

/-- C3: every sliding-window check at time `now` with positive limit and
window has `elapsed ∈ [0, 1)`; it allows and increments the current-window
counter exactly when `estimated < limit`, denies without any state mutation
otherwise, and always reports `remaining = max(0, limit − ⌊estimated⌋)` and
`resetAt = currentWindowStart + window·1000`. -/
theorem slidingWindow_check_characterization (L W now : Nat) (hL : 0 < L)
    (hW : 0 < W) (store : SwStore) :
    0 ≤ swElapsed now W ∧ swElapsed now W < 1 ∧
    (swEstimated store now W < (L : ℚ) →
      (SlidingWindowLimiter.check store now L W).1.allowed = true ∧
      (SlidingWindowLimiter.check store now L W).2 = fun w =>
        if w = swCurrentWindow now W then
          some ((store (swCurrentWindow now W)).getD 0 + 1)
        else store w) ∧
    ((L : ℚ) ≤ swEstimated store now W →
      (SlidingWindowLimiter.check store now L W).1.allowed = false ∧
      (SlidingWindowLimiter.check store now L W).2 = store) ∧
    (SlidingWindowLimiter.check store now L W).1.remaining =
      max 0 ((L : Int) - ⌊swEstimated store now W⌋) ∧
    (SlidingWindowLimiter.check store now L W).1.resetAt =
      swCurrentWindow now W + ((W * 1000 : Nat) : Int) := by
  have hM : 0 < W * 1000 := by positivity
  have hMq : (0 : ℚ) < ((W * 1000 : Nat) : ℚ) := by exact_mod_cast hM
  have hfloor : now / (W * 1000) * (W * 1000) ≤ now := Nat.div_mul_le_self _ _
  have hcw : ((swCurrentWindow now W : Int) : ℚ) =
      ((now / (W * 1000) * (W * 1000) : Nat) : ℚ) := by
    rw [swCurrentWindow]
    exact_mod_cast rfl
  have hsub : (now : ℚ) - ((swCurrentWindow now W : Int) : ℚ) =
      ((now - now / (W * 1000) * (W * 1000) : Nat) : ℚ) := by
    rw [hcw, ← Nat.cast_sub hfloor]
  have hmod : now - now / (W * 1000) * (W * 1000) = now % (W * 1000) := by
    have hdm := Nat.div_add_mod now (W * 1000)
    have hce : now / (W * 1000) * (W * 1000) =
        W * 1000 * (now / (W * 1000)) := Nat.mul_comm _ _
    omega
  have hel : swElapsed now W = ((now % (W * 1000) : Nat) : ℚ) /
      ((W * 1000 : Nat) : ℚ) := by
    rw [swElapsed, hsub, hmod]
  have h0 : 0 ≤ swElapsed now W := by
    rw [hel]
    positivity
  have h1 : swElapsed now W < 1 := by
    rw [hel, div_lt_one hMq]
    exact_mod_cast Nat.mod_lt _ hM
  refine ⟨h0, h1, ?_, ?_, ?_, ?_⟩
  · intro hest
    simp only [swEstimated, swElapsed, swCurrentWindow] at hest
    simp only [SlidingWindowLimiter.check, swCurrentWindow]
    rw [if_pos hest]
    exact ⟨rfl, rfl⟩
  · intro hest
    have hlt : ¬ swEstimated store now W < (L : ℚ) := not_lt.mpr hest
    simp only [swEstimated, swElapsed, swCurrentWindow] at hlt
    simp only [SlidingWindowLimiter.check, swCurrentWindow]
    rw [if_neg hlt]
    exact ⟨rfl, rfl⟩
  · simp only [SlidingWindowLimiter.check, swEstimated, swElapsed,
      swCurrentWindow]
    split
    · rfl
    · rfl
  · simp only [SlidingWindowLimiter.check, swEstimated, swElapsed,
      swCurrentWindow]
    split
    · rfl
    · rfl

/-- Witness for C3 at `L = W = 1`, `now = 0`, empty store: the estimate is 0,
so the check is allowed. -/
theorem slidingWindow_check_characterization_witness :
    (SlidingWindowLimiter.check (fun _ => none) 0 1 1).1.allowed = true ∧
    0 ≤ swElapsed 0 1 ∧ swElapsed 0 1 < 1 := by
  have h := slidingWindow_check_characterization 1 1 0 (by decide) (by decide)
    (fun _ => none)
  have hest : swEstimated (fun _ => none) 0 1 < ((1 : Nat) : ℚ) := by
    norm_num [swEstimated, swElapsed, swCurrentWindow]
  exact ⟨(h.2.2.1 hest).1, h.1, h.2.1⟩

/-- Spec formula (§4.1 Token Bucket): `rate = limit / window` tokens per
second. -/
def tbRate (L W : Nat) : ℚ := (L : ℚ) / (W : ℚ)

/-- Spec formula: the stored token count, `limit` on first use. -/
def tbTokens0 (st : TbState) (L : Nat) : ℚ :=
  match st with
  | none => (L : ℚ)
  | some (t, _) => t

/-- Spec formula: the stored refill clock, `now` on first use. -/
def tbLastUpdate (st : TbState) (now : Nat) : Nat :=
  match st with
  | none => now
  | some (_, u) => u

/-- Spec formula: `tokens = min(limit, tokens + elapsed × rate)` with
`elapsed = (now − lastUpdate)/1000` seconds. -/
def tbRefilled (st : TbState) (now L W : Nat) : ℚ :=
  min (L : ℚ) (tbTokens0 st L +
    ((now : ℚ) - ((tbLastUpdate st now : Nat) : ℚ)) / 1000 * tbRate L W)

/-- When the refilled token count reaches 1, the token-bucket check allows,
spends one token, and persists the spent count with `lastUpdate = now`. -/
lemma tb_check_allowed_eq (L W now : Nat) (st : TbState)
    (h : 1 ≤ tbRefilled st now L W) :
    TokenBucketLimiter.check st now L W =
      ({ allowed := true
         limit := L
         remaining := ⌊(tbRefilled st now L W - 1 : ℚ)⌋
         resetAt := ((now + W * 1000 : Nat) : Int)
         retryAfter := none
         currentUsage := (L : Int) - ⌊(tbRefilled st now L W - 1 : ℚ)⌋ },
       some (tbRefilled st now L W - 1, now)) := by
  simp only [tbRefilled, tbTokens0, tbLastUpdate, tbRate] at h ⊢
  simp only [TokenBucketLimiter.check]
  rw [if_pos h]

/-- When the refilled token count stays below 1, the token-bucket check
denies and still persists the refilled count with `lastUpdate = now`. -/
lemma tb_check_denied_eq (L W now : Nat) (st : TbState)
    (h : tbRefilled st now L W < 1) :
    TokenBucketLimiter.check st now L W =
      ({ allowed := false
         limit := L
         remaining := ⌊tbRefilled st now L W⌋
         resetAt := ((now + W * 1000 : Nat) : Int)
         retryAfter := some ⌈((1 - tbRefilled st now L W) / tbRate L W : ℚ)⌉
         currentUsage := (L : Int) - ⌊tbRefilled st now L W⌋ },
       some (tbRefilled st now L W, now)) := by
  have h2 : ¬ (1 : ℚ) ≤ tbRefilled st now L W := not_le.mpr h
  simp only [tbRefilled, tbTokens0, tbLastUpdate, tbRate] at h2 ⊢
  simp only [TokenBucketLimiter.check]
  rw [if_neg h2]

/-- The testable token-bucket scenario: fresh bucket, `limit = 10`,
`window = 10`, eleven checks at time 0 then two at time 1000. -/
lemma tb_scenario :
    (TokenBucketLimiter.process 10 10 [0, 0, 0, 0, 0, 0, 0, 0, 0, 0, 0, 1000,
        1000] none).1.map (fun r => r.allowed) =
      [true, true, true, true, true, true, true, true, true, true, false,
        true, false] := by
  norm_num [TokenBucketLimiter.process, TokenBucketLimiter.check, min_def]

/-- C2: every token-bucket check refills to
`min(limit, tokens + elapsed × limit/window)` from a state initialized to
`(limit, now)` on first use, spends one token exactly when the refilled count
reaches 1, reports the (floored) post-decision count as `remaining`, and
persists the new state even on denial; in the concrete scenario with
`limit = 10`, `window = 10`, ten immediate checks succeed, the eleventh
fails, and after one second exactly one more check succeeds. -/
theorem tokenBucket_check_characterization (L W now : Nat) (hL : 0 < L)
    (hW : 0 < W) (st : TbState) :
    (1 ≤ tbRefilled st now L W →
      TokenBucketLimiter.check st now L W =
        ({ allowed := true
           limit := L
           remaining := ⌊(tbRefilled st now L W - 1 : ℚ)⌋
           resetAt := ((now + W * 1000 : Nat) : Int)
           retryAfter := none
           currentUsage := (L : Int) - ⌊(tbRefilled st now L W - 1 : ℚ)⌋ },
         some (tbRefilled st now L W - 1, now))) ∧
    (tbRefilled st now L W < 1 →
      TokenBucketLimiter.check st now L W =
        ({ allowed := false
           limit := L
           remaining := ⌊tbRefilled st now L W⌋
           resetAt := ((now + W * 1000 : Nat) : Int)
           retryAfter := some ⌈((1 - tbRefilled st now L W) / tbRate L W : ℚ)⌉
           currentUsage := (L : Int) - ⌊tbRefilled st now L W⌋ },
         some (tbRefilled st now L W, now))) ∧
    (TokenBucketLimiter.process 10 10 [0, 0, 0, 0, 0, 0, 0, 0, 0, 0, 0, 1000,
        1000] none).1.map (fun r => r.allowed) =
      [true, true, true, true, true, true, true, true, true, true, false,
        true, false] :=
  ⟨tb_check_allowed_eq L W now st, tb_check_denied_eq L W now st, tb_scenario⟩

/-- Witness for C2: the first check on a fresh bucket with
`limit = window = 10` at time 0. -/
theorem tokenBucket_check_characterization_witness :
    TokenBucketLimiter.check none 0 10 10 =
      ({ allowed := true
         limit := 10
         remaining := ⌊(tbRefilled none 0 10 10 - 1 : ℚ)⌋
         resetAt := ((0 + 10 * 1000 : Nat) : Int)
         retryAfter := none
         currentUsage := ((10 : Nat) : Int) - ⌊(tbRefilled none 0 10 10 - 1 : ℚ)⌋ },
       some (tbRefilled none 0 10 10 - 1, 0)) :=
  (tokenBucket_check_characterization 10 10 0 (by decide) (by decide) none).1
    (by norm_num [tbRefilled, tbTokens0, tbLastUpdate, tbRate])

/-- One token-bucket check from a state whose token count lies in
`[0, limit]` and whose refill clock is not in the future produces a state
with `lastUpdate = now`, token count again in `[0, limit]`, and a reported
`remaining` in `[0, limit]`. -/
lemma tb_check_state_bounds (L W now : Nat) (hW : 0 < W) (st : TbState)
    (hst : st = none ∨
      ∃ tok lu, st = some (tok, lu) ∧ 0 ≤ tok ∧ tok ≤ (L : ℚ) ∧ lu ≤ now) :
    ∃ tok2, (TokenBucketLimiter.check st now L W).2 = some (tok2, now) ∧
      0 ≤ tok2 ∧ tok2 ≤ (L : ℚ) ∧
      0 ≤ (TokenBucketLimiter.check st now L W).1.remaining ∧
      (TokenBucketLimiter.check st now L W).1.remaining ≤ (L : Int) := by
  have hWq : (0 : ℚ) < (W : ℚ) := by exact_mod_cast hW
  have hrate : 0 ≤ tbRate L W := by
    rw [tbRate]
    positivity
  have htok : 0 ≤ tbTokens0 st L ∧ tbTokens0 st L ≤ (L : ℚ) := by
    rcases hst with h | ⟨tok, lu, h, h0, h1, _⟩
    · subst h
      simp [tbTokens0]
    · subst h
      exact ⟨h0, h1⟩
  have hlu : (tbLastUpdate st now : ℚ) ≤ (now : ℚ) := by
    rcases hst with h | ⟨tok, lu, h, _, _, h2⟩
    · subst h
      simp [tbLastUpdate]
    · subst h
      simp only [tbLastUpdate]
      exact_mod_cast h2
  have hadd : 0 ≤ ((now : ℚ) - ((tbLastUpdate st now : Nat) : ℚ)) / 1000 *
      tbRate L W := by
    have : (0 : ℚ) ≤ (now : ℚ) - ((tbLastUpdate st now : Nat) : ℚ) :=
      sub_nonneg.mpr hlu
    positivity
  have href0 : 0 ≤ tbRefilled st now L W := by
    rw [tbRefilled]
    exact le_min (by exact_mod_cast Nat.zero_le L) (by linarith [htok.1])
  have href1 : tbRefilled st now L W ≤ (L : ℚ) := min_le_left _ _
  by_cases h1 : 1 ≤ tbRefilled st now L W
  · rw [tb_check_allowed_eq L W now st h1]
    refine ⟨tbRefilled st now L W - 1, rfl, by linarith, by linarith, ?_, ?_⟩
    · simp only
      rw [Int.floor_nonneg]
      linarith
    · simp only
      calc ⌊(tbRefilled st now L W - 1 : ℚ)⌋ ≤ ⌊(L : ℚ)⌋ :=
            Int.floor_le_floor (by linarith)
        _ = (L : Int) := Int.floor_natCast L
  · have h2 : tbRefilled st now L W < 1 := not_le.mp h1
    rw [tb_check_denied_eq L W now st h2]
    refine ⟨tbRefilled st now L W, rfl, href0, href1, ?_, ?_⟩
    · simp only
      rw [Int.floor_nonneg]
      exact href0
    · simp only
      calc ⌊tbRefilled st now L W⌋ ≤ ⌊(L : ℚ)⌋ := Int.floor_le_floor href1
        _ = (L : Int) := Int.floor_natCast L

/-- Invariant for a run of token-bucket checks at non-decreasing times: the
final state token count and all reported `remaining` values stay in
`[0, limit]`. -/
lemma tb_process_inv (L W : Nat) (hW : 0 < W) :
    ∀ (times : List Nat) (st : TbState), times.Chain' (· ≤ ·) →
      (st = none ∨ ∃ tok lu, st = some (tok, lu) ∧ 0 ≤ tok ∧ tok ≤ (L : ℚ) ∧
        (∀ t, times.head? = some t → lu ≤ t)) →
      ((TokenBucketLimiter.process L W times st).2 = st ∨
        ∃ tok lu, (TokenBucketLimiter.process L W times st).2 = some (tok, lu) ∧
          0 ≤ tok ∧ tok ≤ (L : ℚ)) ∧
      (∀ r ∈ (TokenBucketLimiter.process L W times st).1,
        0 ≤ r.remaining ∧ r.remaining ≤ (L : Int)) := by
  intro times
  induction times with
  | nil =>
    intro st _ _
    exact ⟨Or.inl rfl, by simp [TokenBucketLimiter.process]⟩
  | cons t ts ih =>
    intro st hchain hst
    have hst2 : st = none ∨
        ∃ tok lu, st = some (tok, lu) ∧ 0 ≤ tok ∧ tok ≤ (L : ℚ) ∧ lu ≤ t := by
      rcases hst with h | ⟨tok, lu, h, h0, h1, h2⟩
      · exact Or.inl h
      · exact Or.inr ⟨tok, lu, h, h0, h1, h2 t rfl⟩
    obtain ⟨tok2, hstep, htok0, htok1, hr0, hr1⟩ :=
      tb_check_state_bounds L W t hW st hst2
    have hchain2 : ts.Chain' (· ≤ ·) := hchain.tail
    have hhead : ∀ t2, ts.head? = some t2 → t ≤ t2 := by
      intro t2 ht2
      rcases ts with _ | ⟨t3, ts2⟩
      · simp at ht2
      · simp at ht2
        subst ht2
        exact (List.chain'_cons.mp hchain).1
    have hih := ih (TokenBucketLimiter.check st t L W).2 hchain2
      (Or.inr ⟨tok2, t, hstep, htok0, htok1, fun t2 ht2 => hhead t2 ht2⟩)
    have hunfold : (TokenBucketLimiter.process L W (t :: ts) st).2 =
        (TokenBucketLimiter.process L W ts
          (TokenBucketLimiter.check st t L W).2).2 := by
      simp [TokenBucketLimiter.process]
    constructor
    · rw [hunfold]
      rcases hih.1 with h | ⟨tok3, lu3, h, h0, h1⟩
      · exact Or.inr ⟨tok2, t, h.trans hstep, htok0, htok1⟩
      · exact Or.inr ⟨tok3, lu3, h, h0, h1⟩
    · intro r hr
      have : r = (TokenBucketLimiter.check st t L W).1 ∨
          r ∈ (TokenBucketLimiter.process L W ts
            (TokenBucketLimiter.check st t L W).2).1 := by
        simpa [TokenBucketLimiter.process] using hr
      rcases this with h | h
      · subst h
        exact ⟨hr0, hr1⟩
      · exact hih.2 r h

/-- C10: over any sequence of token-bucket checks at non-decreasing times on
one subject with positive limit and window, the persisted token count stays
in `[0, limit]` after every prefix of the run, and every reported `remaining`
is an integer in `[0, limit]`. -/
theorem tokenBucket_tokens_in_range (L W : Nat) (hL : 0 < L) (hW : 0 < W)
    (times : List Nat) (hchain : times.Chain' (· ≤ ·)) :
    (∀ n tok lu,
      (TokenBucketLimiter.process L W (times.take n) none).2 = some (tok, lu) →
      0 ≤ tok ∧ tok ≤ (L : ℚ)) ∧
    (∀ r ∈ (TokenBucketLimiter.process L W times none).1,
      0 ≤ r.remaining ∧ r.remaining ≤ (L : Int)) := by
  constructor
  · intro n tok lu heq
    have hc : (times.take n).Chain' (· ≤ ·) :=
      hchain.prefix (List.take_prefix n times)
    have h := (tb_process_inv L W hW (times.take n) none hc (Or.inl rfl)).1
    rcases h with h | ⟨tok3, lu3, h, h0, h1⟩
    · rw [heq] at h
      cases h
    · rw [heq] at h
      cases h
      exact ⟨h0, h1⟩
  · exact (tb_process_inv L W hW times none hchain (Or.inl rfl)).2

/-- Witness for C10: after one check at time 0 with `limit = window = 10`,
the persisted token count 9 is within `[0, 10]`. -/
theorem tokenBucket_tokens_in_range_witness :
    0 ≤ (9 : ℚ) ∧ (9 : ℚ) ≤ ((10 : Nat) : ℚ) :=
  (tokenBucket_tokens_in_range 10 10 (by decide) (by decide) [0]
      (by simp)).1 1 9 0
    (by norm_num [TokenBucketLimiter.process, TokenBucketLimiter.check,
      min_def])

/-- The refilled token count is non-negative whenever the stored count is
non-negative and the refill clock is not in the future. -/
lemma tb_refilled_nonneg (L W now : Nat) (st : TbState)
    (hst : st = none ∨
      ∃ tok lu, st = some (tok, lu) ∧ 0 ≤ tok ∧ lu ≤ now) :
    0 ≤ tbRefilled st now L W := by
  have htok : 0 ≤ tbTokens0 st L := by
    rcases hst with h | ⟨tok, lu, h, h0, _⟩
    · subst h
      simp [tbTokens0]
    · subst h
      exact h0
  have hlu : (tbLastUpdate st now : ℚ) ≤ (now : ℚ) := by
    rcases hst with h | ⟨tok, lu, h, _, h2⟩
    · subst h
      simp [tbLastUpdate]
    · subst h
      simp only [tbLastUpdate]
      exact_mod_cast h2
  have hrate : 0 ≤ tbRate L W := by
    rw [tbRate]
    positivity
  have hadd : 0 ≤ ((now : ℚ) - ((tbLastUpdate st now : Nat) : ℚ)) / 1000 *
      tbRate L W := by
    have hd : (0 : ℚ) ≤ (now : ℚ) - ((tbLastUpdate st now : Nat) : ℚ) :=
      sub_nonneg.mpr hlu
    positivity
  rw [tbRefilled]
  exact le_min (by exact_mod_cast Nat.zero_le L) (by linarith)

/-- C9: with positive limit and window, every result of the three algorithms
has `remaining ≥ 0`, and an allowed result never carries a `retryAfter` (for
the token bucket, from any state with a non-negative stored count and a
refill clock not in the future — every reachable state). -/
theorem checkResult_shape_invariant (L W now : Nat) (hL : 0 < L)
    (hW : 0 < W) :
    (∀ store : FwStore,
      0 ≤ (FixedWindowLimiter.check store now L W).1.remaining ∧
      ((FixedWindowLimiter.check store now L W).1.allowed = true →
        (FixedWindowLimiter.check store now L W).1.retryAfter = none)) ∧
    (∀ store : SwStore,
      0 ≤ (SlidingWindowLimiter.check store now L W).1.remaining ∧
      ((SlidingWindowLimiter.check store now L W).1.allowed = true →
        (SlidingWindowLimiter.check store now L W).1.retryAfter = none)) ∧
    (∀ st : TbState,
      (st = none ∨ ∃ tok lu, st = some (tok, lu) ∧ 0 ≤ tok ∧ lu ≤ now) →
      0 ≤ (TokenBucketLimiter.check st now L W).1.remaining ∧
      ((TokenBucketLimiter.check st now L W).1.allowed = true →
        (TokenBucketLimiter.check st now L W).1.retryAfter = none)) := by
  refine ⟨?_, ?_, ?_⟩
  · intro store
    simp only [FixedWindowLimiter.check]
    split
    · exact ⟨le_max_left _ _, fun _ => rfl⟩
    · exact ⟨le_max_left _ _, fun h => absurd h Bool.false_ne_true⟩
  · intro store
    simp only [SlidingWindowLimiter.check]
    split
    · exact ⟨le_max_left _ _, fun _ => rfl⟩
    · exact ⟨le_max_left _ _, fun h => absurd h Bool.false_ne_true⟩
  · intro st hst
    have h0 := tb_refilled_nonneg L W now st hst
    by_cases h1 : 1 ≤ tbRefilled st now L W
    · rw [tb_check_allowed_eq L W now st h1]
      refine ⟨?_, fun _ => rfl⟩
      simp only
      rw [Int.floor_nonneg]
      linarith
    · rw [tb_check_denied_eq L W now st (not_le.mp h1)]
      refine ⟨?_, fun h => absurd h Bool.false_ne_true⟩
      simp only
      rw [Int.floor_nonneg]
      exact h0

/-- Witness for C9 at `L = W = 1`, `now = 0`, empty stores and a fresh token
bucket. -/
theorem checkResult_shape_invariant_witness :
    (0 ≤ (FixedWindowLimiter.check (fun _ => none) 0 1 1).1.remaining ∧
      ((FixedWindowLimiter.check (fun _ => none) 0 1 1).1.allowed = true →
        (FixedWindowLimiter.check (fun _ => none) 0 1 1).1.retryAfter =
          none)) ∧
    (0 ≤ (TokenBucketLimiter.check none 0 1 1).1.remaining ∧
      ((TokenBucketLimiter.check none 0 1 1).1.allowed = true →
        (TokenBucketLimiter.check none 0 1 1).1.retryAfter = none)) := by
  have h := checkResult_shape_invariant 1 1 0 (by decide) (by decide)
  exact ⟨h.1 (fun _ => none), h.2.2 none (Or.inl rfl)⟩

/-- A returned threshold is a crossed threshold from the list that dominates
every other crossed threshold. -/
lemma shouldNotify_some_part (u L : Nat) (ths : List Nat) :
    ∀ t, WebhookNotifier.shouldNotify u L ths = some t →
      t ∈ ths ∧ (t : ℚ) ≤ (u : ℚ) / (L : ℚ) * 100 ∧
      ∀ s ∈ ths, (s : ℚ) ≤ (u : ℚ) / (L : ℚ) * 100 → s ≤ t := by
  intro t h
  simp only [WebhookNotifier.shouldNotify] at h
  have hperm := List.mergeSort_perm
    (ths.filter (fun t : Nat => decide ((t : ℚ) ≤ (u : ℚ) / (L : ℚ) * 100)))
    (fun a b : Nat => decide (b ≤ a))
  have hsorted : List.Pairwise (fun a b : Nat => decide (b ≤ a) = true)
      ((ths.filter (fun t : Nat =>
        decide ((t : ℚ) ≤ (u : ℚ) / (L : ℚ) * 100))).mergeSort
        (fun a b : Nat => decide (b ≤ a))) :=
    List.sorted_mergeSort
      (by
        intro a b c hab hbc
        simp only [decide_eq_true_eq] at *
        omega)
      (by
        intro a b
        simp only [Bool.or_eq_true, decide_eq_true_eq]
        exact Nat.le_total b a)
      _
  rcases hm : (ths.filter (fun t : Nat =>
      decide ((t : ℚ) ≤ (u : ℚ) / (L : ℚ) * 100))).mergeSort
      (fun a b : Nat => decide (b ≤ a)) with _ | ⟨a, rest⟩
  · rw [hm] at h
    cases h
  · rw [hm] at h
    have hat : a = t := by
      simpa using h
    subst hat
    rw [hm] at hperm hsorted
    have hmemf : a ∈ ths.filter (fun t : Nat =>
        decide ((t : ℚ) ≤ (u : ℚ) / (L : ℚ) * 100)) :=
      hperm.subset (List.mem_cons_self a rest)
    have hmem := List.mem_filter.mp hmemf
    refine ⟨hmem.1, by simpa using hmem.2, ?_⟩
    intro s hs hsle
    have hsf : s ∈ ths.filter (fun t : Nat =>
        decide ((t : ℚ) ≤ (u : ℚ) / (L : ℚ) * 100)) :=
      List.mem_filter.mpr ⟨hs, by simpa using hsle⟩
    have hsm : s ∈ a :: rest := hperm.symm.subset hsf
    rcases List.mem_cons.mp hsm with h | h
    · exact le_of_eq h
    · have := (List.pairwise_cons.mp hsorted).1 s h
      simpa using this

/-- The notifier stays silent exactly when no threshold is crossed. -/
lemma shouldNotify_none_part (u L : Nat) (ths : List Nat) :
    WebhookNotifier.shouldNotify u L ths = none ↔
      ∀ t ∈ ths, (u : ℚ) / (L : ℚ) * 100 < (t : ℚ) := by
  simp only [WebhookNotifier.shouldNotify]
  constructor
  · intro h t ht
    have hm := List.head?_eq_none_iff.mp h
    have hperm := List.mergeSort_perm
      (ths.filter (fun t : Nat => decide ((t : ℚ) ≤ (u : ℚ) / (L : ℚ) * 100)))
      (fun a b : Nat => decide (b ≤ a))
    rw [hm] at hperm
    have hf := List.filter_eq_nil_iff.mp hperm.symm.eq_nil
    have := hf t ht
    simpa using this
  · intro h
    have hf : ths.filter (fun t : Nat =>
        decide ((t : ℚ) ≤ (u : ℚ) / (L : ℚ) * 100)) = [] := by
      refine List.filter_eq_nil_iff.mpr ?_
      intro t ht
      simpa using not_le.mpr (h t ht)
    rw [hf, List.mergeSort_nil]
    rfl

/-- C7: with a positive limit, `shouldNotify` returns the largest threshold
`t` with `currentUsage/limit × 100 ≥ t` and `none` when no threshold is
satisfied; in particular `shouldNotify(85,100,[80,90,100]) = 80`,
`shouldNotify(100,100,[80,90,100]) = 100`, and
`shouldNotify(10,100,[80,90,100]) = none`. -/
theorem shouldNotify_largest_crossed (u L : Nat) (ths : List Nat)
    (hL : 0 < L) :
    (∀ t, WebhookNotifier.shouldNotify u L ths = some t →
      t ∈ ths ∧ (t : ℚ) ≤ (u : ℚ) / (L : ℚ) * 100 ∧
      ∀ s ∈ ths, (s : ℚ) ≤ (u : ℚ) / (L : ℚ) * 100 → s ≤ t) ∧
    (WebhookNotifier.shouldNotify u L ths = none ↔
      ∀ t ∈ ths, (u : ℚ) / (L : ℚ) * 100 < (t : ℚ)) ∧
    WebhookNotifier.shouldNotify 85 100 [80, 90, 100] = some 80 ∧
    WebhookNotifier.shouldNotify 100 100 [80, 90, 100] = some 100 ∧
    WebhookNotifier.shouldNotify 10 100 [80, 90, 100] = none := by
  refine ⟨shouldNotify_some_part u L ths, shouldNotify_none_part u L ths,
    ?_, ?_, ?_⟩
  · have hne : WebhookNotifier.shouldNotify 85 100 [80, 90, 100] ≠ none := by
      rw [Ne, shouldNotify_none_part]
      intro h
      have := h 80 (by simp)
      norm_num at this
    obtain ⟨t, ht⟩ := Option.ne_none_iff_exists'.mp hne
    obtain ⟨hmem, hle, hmax⟩ := shouldNotify_some_part 85 100 [80, 90, 100]
      t ht
    have h80 : 80 ≤ t := hmax 80 (by simp) (by norm_num)
    have hub : (t : ℚ) ≤ 85 := by
      calc (t : ℚ) ≤ (85 : ℚ) / (100 : ℚ) * 100 := hle
        _ = 85 := by norm_num
    have ht85 : t ≤ 85 := by exact_mod_cast hub
    have : t = 80 ∨ t = 90 ∨ t = 100 := by simpa using hmem
    rcases this with h | h | h
    · rw [ht, h]
    · omega
    · omega
  · have hne : WebhookNotifier.shouldNotify 100 100 [80, 90, 100] ≠ none := by
      rw [Ne, shouldNotify_none_part]
      intro h
      have := h 100 (by simp)
      norm_num at this
    obtain ⟨t, ht⟩ := Option.ne_none_iff_exists'.mp hne
    obtain ⟨hmem, hle, hmax⟩ := shouldNotify_some_part 100 100 [80, 90, 100]
      t ht
    have h100 : 100 ≤ t := hmax 100 (by simp) (by norm_num)
    have : t = 80 ∨ t = 90 ∨ t = 100 := by simpa using hmem
    rcases this with h | h | h
    · omega
    · omega
    · rw [ht, h]
  · rw [shouldNotify_none_part]
    intro t ht
    have : t = 80 ∨ t = 90 ∨ t = 100 := by simpa using ht
    rcases this with h | h | h <;> rw [h] <;> norm_num

/-- Witness for C7: the three concrete evaluations at limit 100. -/
theorem shouldNotify_largest_crossed_witness :
    WebhookNotifier.shouldNotify 85 100 [80, 90, 100] = some 80 ∧
    WebhookNotifier.shouldNotify 100 100 [80, 90, 100] = some 100 ∧
    WebhookNotifier.shouldNotify 10 100 [80, 90, 100] = none := by
  have h := shouldNotify_largest_crossed 85 100 [80, 90, 100] (by decide)
  exact ⟨h.2.2.1, h.2.2.2.1, h.2.2.2.2⟩

/-- A successful `find?` splits the list at the first element satisfying the
predicate. -/
lemma find?_first_split {α : Type} (p : α → Bool) :
    ∀ (l : List α) (a : α), l.find? p = some a →
      ∃ l1 l2, l = l1 ++ a :: l2 ∧ ∀ b ∈ l1, p b = false := by
  intro l
  induction l with
  | nil =>
    intro a h
    cases h
  | cons x xs ih =>
    intro a h
    by_cases hx : p x = true
    · rw [List.find?_cons_of_pos _ hx] at h
      have hxa : x = a := by simpa using h
      subst hxa
      exact ⟨[], xs, rfl, by simp⟩
    · rw [List.find?_cons_of_neg _ hx] at h
      obtain ⟨l1, l2, hl, hfalse⟩ := ih a h
      refine ⟨x :: l1, l2, by simp [hl], ?_⟩
      intro b hb
      rcases List.mem_cons.mp hb with h2 | h2
      · subst h2
        exact Bool.not_eq_true _ ▸ eq_false_of_ne_true hx
      · exact hfalse b h2

/-- C6: `findByKey` ignores its endpoint argument and returns the first
enabled cached rule with a key entry whose value is `"*"` or a substring of
the key (`none` when no enabled rule matches); a `"*"` entry matches every
key and a `"42"` entry matches both `"user:42"` and `"user:4200"`. -/
theorem findByKey_first_enabled_match (m : RuleMap) (key : String)
    (e1 e2 : Option String) :
    RuleCache.findByKey m key e1 = RuleCache.findByKey m key e2 ∧
    (∀ r, RuleCache.findByKey m key e1 = some r →
      r ∈ RuleMap.values m ∧ r.enabled = true ∧
      ruleMatchesKey key r = true ∧
      ∃ l1 l2, RuleMap.values m = l1 ++ r :: l2 ∧
        ∀ r2 ∈ l1, (r2.enabled && ruleMatchesKey key r2) = false) ∧
    (RuleCache.findByKey m key e1 = none ↔
      ∀ r ∈ RuleMap.values m, r.enabled = true →
        ruleMatchesKey key r = false) ∧
    (∀ r : Rule, (∃ kc ∈ r.keys, kc.value = "*") →
      ruleMatchesKey key r = true) ∧
    (∀ r : Rule, (∃ kc ∈ r.keys, kc.value = "42") →
      ruleMatchesKey "user:42" r = true ∧
      ruleMatchesKey "user:4200" r = true) := by
  refine ⟨rfl, ?_, ?_, ?_, ?_⟩
  · intro r h
    have hp := List.find?_some h
    have hmem := List.mem_of_find?_eq_some h
    have hand : r.enabled = true ∧ ruleMatchesKey key r = true := by
      simpa using hp
    obtain ⟨l1, l2, hl, hfalse⟩ := find?_first_split _ _ r h
    exact ⟨hmem, hand.1, hand.2, l1, l2, hl, hfalse⟩
  · rw [RuleCache.findByKey, List.find?_eq_none]
    constructor
    · intro h r hr he
      have := h r hr
      simp only [Bool.and_eq_true, not_and] at this
      exact Bool.not_eq_true _ ▸ eq_false_of_ne_true (this he)
    · intro h r hr
      simp only [Bool.and_eq_true, not_and]
      intro he
      rw [h r hr he]
      simp
  · intro r ⟨kc, hkc, hval⟩
    rw [ruleMatchesKey, List.any_eq_true]
    refine ⟨kc, hkc, ?_⟩
    rw [hval]
    simp
  · intro r ⟨kc, hkc, hval⟩
    constructor
    · rw [ruleMatchesKey, List.any_eq_true]
      refine ⟨kc, hkc, ?_⟩
      rw [hval]
      simp only [Bool.or_eq_true, decide_eq_true_eq]
      exact Or.inr (by decide)
    · rw [ruleMatchesKey, List.any_eq_true]
      refine ⟨kc, hkc, ?_⟩
      rw [hval]
      simp only [Bool.or_eq_true, decide_eq_true_eq]
      exact Or.inr (by decide)

/-- A concrete rule whose only key entry has value `"42"`. -/
def sampleRule42 : Rule :=
  { id := "r1"
    name := "sample"
    algorithm := AlgorithmType.fixed_window
    limit := 1
    window := 1
    keys := [{ type := KeyType.user, value := "42" }]
    webhookUrl := none
    thresholds := [80, 90, 100]
    enabled := true
    createdAt := none
    updatedAt := none }

/-- Witness for C6: the `"42"` rule matches both `"user:42"` and
`"user:4200"`, and `findByKey` finds it first in a one-rule cache. -/
theorem findByKey_first_enabled_match_witness :
    (ruleMatchesKey "user:42" sampleRule42 = true ∧
      ruleMatchesKey "user:4200" sampleRule42 = true) ∧
    sampleRule42 ∈ RuleMap.values [("r1", sampleRule42)] ∧
    sampleRule42.enabled = true := by
  have h := findByKey_first_enabled_match [("r1", sampleRule42)] "user:42"
    none (some "x")
  have hfind : RuleCache.findByKey [("r1", sampleRule42)] "user:42" none =
      some sampleRule42 := by
    rw [RuleCache.findByKey]
    apply List.find?_cons_of_pos
    decide
  have h2 := h.2.1 sampleRule42 hfind
  exact ⟨h.2.2.2.2 sampleRule42 ⟨{ type := KeyType.user, value := "42" },
    by simp [sampleRule42], rfl⟩, h2.1, h2.2.1⟩

/-- Counterexample to C5 as stated: for the schema-valid request
`{key: "k", endpoint: ""}` the endpoint is present, yet the subject key is
`"k"` rather than `"k" ++ ":" ++ ""`, and it collides with the subject key of
the endpoint-less request `{key: "k"}` although the two endpoints differ. -/
theorem buildFullKey_empty_endpoint_counterexample :
    RateLimiterService.buildFullKey "k" (some "") = "k" ∧
    RateLimiterService.buildFullKey "k" (some "") ≠ "k" ++ ":" ++ "" ∧
    some "" ≠ (none : Option String) ∧
    RateLimiterService.buildFullKey "k" (some "") =
      RateLimiterService.buildFullKey "k" none := by
  refine ⟨rfl, by decide, by simp, rfl⟩

/-- C5 (amended): the subject key is `key ++ ":" ++ endpoint` when the
endpoint is present and non-empty, and `key` alone otherwise (absent or empty
endpoint); two requests with the same key whose endpoints differ — none of
them being the empty string — get distinct subject keys. -/
theorem buildFullKey_amended (key : String) (e1 e2 : Option String) :
    (∀ s, e1 = some s → s ≠ "" →
      RateLimiterService.buildFullKey key e1 = key ++ ":" ++ s) ∧
    RateLimiterService.buildFullKey key none = key ∧
    RateLimiterService.buildFullKey key (some "") = key ∧
    (e1 ≠ e2 → (∀ s, e1 = some s → s ≠ "") → (∀ s, e2 = some s → s ≠ "") →
      RateLimiterService.buildFullKey key e1 ≠
        RateLimiterService.buildFullKey key e2) := by
  have hsome : ∀ s : String, s ≠ "" →
      RateLimiterService.buildFullKey key (some s) = key ++ ":" ++ s := by
    intro s hs
    simp [RateLimiterService.buildFullKey, truthyStr, bne_iff_ne, hs]
  have hlen : ∀ s : String, key ≠ key ++ ":" ++ s := by
    intro s h
    have hl := congrArg String.length h
    rw [String.length_append, String.length_append] at hl
    have h1 : (":" : String).length = 1 := rfl
    omega
  refine ⟨fun s h1 hs => by rw [h1]; exact hsome s hs, rfl, rfl, ?_⟩
  intro hne h1 h2
  match e1, e2 with
  | none, none => exact absurd rfl hne
  | none, some s2 =>
    have hs2 : s2 ≠ "" := h2 s2 rfl
    rw [hsome s2 hs2]
    exact hlen s2
  | some s1, none =>
    have hs1 : s1 ≠ "" := h1 s1 rfl
    rw [hsome s1 hs1]
    exact fun h => hlen s1 h.symm
  | some s1, some s2 =>
    have hs1 : s1 ≠ "" := h1 s1 rfl
    have hs2 : s2 ≠ "" := h2 s2 rfl
    have hs12 : s1 ≠ s2 := fun h => hne (by rw [h])
    rw [hsome s1 hs1, hsome s2 hs2]
    intro h
    apply hs12
    have hd := congrArg String.data h
    simp only [String.data_append] at hd
    exact String.ext (List.append_cancel_left hd)

/-- Witness for C5 (amended): same key `"k"`, endpoints `"a"` and `"b"`. -/
theorem buildFullKey_amended_witness :
    RateLimiterService.buildFullKey "k" (some "a") = "k" ++ ":" ++ "a" ∧
    RateLimiterService.buildFullKey "k" (some "a") ≠
      RateLimiterService.buildFullKey "k" (some "b") := by
  have h := buildFullKey_amended "k" (some "a") (some "b")
  refine ⟨h.1 "a" rfl (by decide), h.2.2.2 (by simp) ?_ ?_⟩
  · intro s hs
    cases hs
    decide
  · intro s hs
    cases hs
    decide

/-- C4: on schema-valid requests, exactly one of the three resolution paths
decides the check, in order: a supplied `ruleId` is looked up (failing with
`RuleNotFound`/`RuleDisabled`, never consulting the matcher); otherwise fully
supplied inline parameters are used directly (consulting neither the rule
lookup nor the matcher); otherwise the matcher decides (failing with
`NoMatchingRule` when it finds nothing, never consulting the rule lookup). -/
theorem resolve_precedence (getRule gr2 : String → Option Rule)
    (fm fm2 : String → Option String → Option Rule) (req : CheckRequest)
    (hv : req.valid) :
    (∀ rid, req.ruleId = some rid →
      (getRule rid = none →
        RateLimiterService.resolve getRule fm req =
          .error (.ruleNotFound rid)) ∧
      (∀ r, getRule rid = some r → r.enabled = false →
        RateLimiterService.resolve getRule fm req =
          .error (.ruleDisabled rid)) ∧
      (∀ r, getRule rid = some r → r.enabled = true →
        RateLimiterService.resolve getRule fm req =
          .ok (r.algorithm, r.limit, r.window)) ∧
      RateLimiterService.resolve getRule fm req =
        RateLimiterService.resolve getRule fm2 req) ∧
    (req.ruleId = none → ∀ a l w, req.algorithm = some a →
      req.limit = some l → req.window = some w →
      RateLimiterService.resolve getRule fm req = .ok (a, l, w) ∧
      RateLimiterService.resolve getRule fm req =
        RateLimiterService.resolve gr2 fm2 req) ∧
    (req.ruleId = none →
      (req.algorithm = none ∨ req.limit = none ∨ req.window = none) →
      (fm req.key req.endpoint = none →
        RateLimiterService.resolve getRule fm req = .error .noMatchingRule) ∧
      (∀ r, fm req.key req.endpoint = some r →
        RateLimiterService.resolve getRule fm req =
          .ok (r.algorithm, r.limit, r.window)) ∧
      RateLimiterService.resolve getRule fm req =
        RateLimiterService.resolve gr2 fm req) := by
  obtain ⟨hkey, hrid0, hlim0, hwin0⟩ := hv
  refine ⟨?_, ?_, ?_⟩
  · intro rid hrid
    have hne : rid ≠ "" := hrid0 rid hrid
    have htr2 : truthyStr (some rid) = true := by
      simp [truthyStr, hne]
    refine ⟨?_, ?_, ?_, ?_⟩
    · intro hnone
      simp [RateLimiterService.resolve, hrid, htr2, hnone]
    · intro r hsome hdis
      simp [RateLimiterService.resolve, hrid, htr2, hsome, hdis]
    · intro r hsome henb
      simp [RateLimiterService.resolve, hrid, htr2, hsome, henb]
    · simp [RateLimiterService.resolve, hrid, htr2]
  · intro hrid a l w ha hl hw
    have hlp : 0 < l := hlim0 l hl
    have hwp : 0 < w := hwin0 w hw
    have hca : truthyAlg (some a) = true := rfl
    have hcl : truthyNum (some l) = true := by
      simp [truthyNum]
      omega
    have hcw : truthyNum (some w) = true := by
      simp [truthyNum]
      omega
    constructor
    · simp [RateLimiterService.resolve, truthyStr, hrid, ha, hl, hw, hca,
        hcl, hcw]
    · simp [RateLimiterService.resolve, truthyStr, hrid, ha, hl, hw, hca,
        hcl, hcw]
  · intro hrid hmiss
    refine ⟨?_, ?_, ?_⟩
    · intro hnone
      rcases hmiss with h | h | h <;>
        simp [RateLimiterService.resolve, truthyStr, truthyAlg, truthyNum,
          hrid, h, hnone]
    · intro r hsome
      rcases hmiss with h | h | h <;>
        simp [RateLimiterService.resolve, truthyStr, truthyAlg, truthyNum,
          hrid, h, hsome]
    · rcases hmiss with h | h | h <;>
        simp [RateLimiterService.resolve, truthyStr, truthyAlg, truthyNum,
          hrid, h]

/-- A schema-valid request carrying full inline parameters. -/
def sampleInlineRequest : CheckRequest :=
  { key := "k"
    endpoint := none
    ruleId := none
    algorithm := some AlgorithmType.token_bucket
    limit := some 5
    window := some 60 }

/-- A schema-valid request referencing a rule by id. -/
def sampleRuleIdRequest : CheckRequest :=
  { key := "k"
    endpoint := none
    ruleId := some "r9"
    algorithm := none
    limit := none
    window := none }

/-- Witness for C4: the inline request resolves to its inline parameters
without touching any rule source, and the `ruleId` request fails with
`RuleNotFound` on an empty rule store. -/
theorem resolve_precedence_witness :
    RateLimiterService.resolve (fun _ => none) (fun _ _ => none)
      sampleInlineRequest =
      .ok (AlgorithmType.token_bucket, 5, 60) ∧
    RateLimiterService.resolve (fun _ => none) (fun _ _ => none)
      sampleRuleIdRequest = .error (.ruleNotFound "r9") := by
  have hv1 : sampleInlineRequest.valid := by
    refine ⟨by decide, ?_, ?_, ?_⟩
    · intro s hs
      cases hs
    · intro n hn
      injection hn with h
      omega
    · intro n hn
      injection hn with h
      omega
  have hv2 : sampleRuleIdRequest.valid := by
    refine ⟨by decide, ?_, ?_, ?_⟩
    · intro s hs
      injection hs with h
      subst h
      decide
    · intro n hn
      cases hn
    · intro n hn
      cases hn
  constructor
  · exact ((resolve_precedence (fun _ => none) (fun _ => none)
      (fun _ _ => none) (fun _ _ => none) sampleInlineRequest hv1).2.1 rfl
      AlgorithmType.token_bucket 5 60 rfl rfl rfl).1
  · exact ((resolve_precedence (fun _ => none) (fun _ => none)
      (fun _ _ => none) (fun _ _ => none) sampleRuleIdRequest hv2).1 "r9"
      rfl).1 rfl

/-- Replacing the entry for `rid` in place leaves it findable. -/
lemma find?_map_replace (m : RuleMap) (rid : String) (r : Rule)
    (hany : m.any (fun p => p.1 == rid) = true) :
    List.find? (fun p => p.1 == rid)
      (m.map (fun p => if p.1 == rid then (rid, r) else p)) = some (rid, r) := by
  induction m with
  | nil => cases hany
  | cons x xs ih =>
    by_cases hx : (x.1 == rid) = true
    · simp only [List.map_cons, if_pos hx]
      exact List.find?_cons_of_pos _ (by simp)
    · have hany2 : xs.any (fun p => p.1 == rid) = true := by
        simpa [hx] using hany
      simp only [List.map_cons, if_neg hx]
      rw [List.find?_cons_of_neg _ (by simpa using hx)]
      exact ih hany2

/-- JS-Map semantics: after `set`, `get` of the rule's id returns the rule. -/
lemma RuleMap.get_set_self (m : RuleMap) (r : Rule) :
    RuleMap.get (RuleMap.set m r) r.id = some r := by
  rw [RuleMap.set]
  by_cases hany : m.any (fun p => p.1 == r.id) = true
  · rw [if_pos hany, RuleMap.get, find?_map_replace m r.id r hany]
    rfl
  · rw [if_neg hany, RuleMap.get, List.find?_append]
    have hnone : List.find? (fun p => p.1 == r.id) m = none := by
      rw [List.find?_eq_none]
      intro x hx hpx
      exact hany (List.any_eq_true.mpr ⟨x, hx, hpx⟩)
    rw [hnone]
    simp

/-- After `set`, the rule is among the map's values. -/
lemma RuleMap.mem_values_set (m : RuleMap) (r : Rule) :
    r ∈ RuleMap.values (RuleMap.set m r) := by
  rw [RuleMap.set]
  by_cases hany : m.any (fun p => p.1 == r.id) = true
  · rw [if_pos hany]
    have hmem := List.mem_of_find?_eq_some (find?_map_replace m r.id r hany)
    rw [RuleMap.values]
    exact List.mem_map.mpr ⟨(r.id, r), hmem, rfl⟩
  · rw [if_neg hany, RuleMap.values]
    simp

/-- C8: a successful `createRule` yields a rule carrying the request's fields
with the materialized defaults (`thresholds = [80,90,100]`,
`enabled = true`, fresh timestamps, generated id when none was supplied), and
that same rule is returned both by `getRule` on its id and by listing all
rules. -/
theorem createRule_roundtrip (st : RuleServiceState) (req : CreateRuleRequest)
    (freshId : String) (now : Nat) (rule : Rule) (st2 : RuleServiceState)
    (h : RuleService.createRule st req freshId now = some (rule, st2)) :
    (RuleService.getRule st2 rule.id).1 = some rule ∧
    rule ∈ RuleService.getAllRules st2 ∧
    rule.name = req.name ∧ rule.algorithm = req.algorithm ∧
    rule.limit = req.limit ∧ rule.window = req.window ∧
    rule.keys = req.keys ∧ rule.webhookUrl = req.webhookUrl ∧
    rule.thresholds = req.thresholds.getD [80, 90, 100] ∧
    rule.enabled = req.enabled.getD true ∧
    rule.createdAt = some now ∧ rule.updatedAt = some now ∧
    (req.id = none → rule.id = freshId) := by
  rw [RuleService.createRule] at h
  split at h
  · rw [Option.some.injEq, Prod.mk.injEq] at h
    obtain ⟨hrule, hst2⟩ := h
    subst hrule
    subst hst2
    refine ⟨?_, ?_, rfl, rfl, rfl, rfl, rfl, rfl, rfl, rfl, rfl, rfl, ?_⟩
    · rw [RuleService.getRule]
      rw [RuleMap.get_set_self]
    · rw [RuleService.getAllRules]
      exact RuleMap.mem_values_set _ _
    · intro hid
      rw [hid]
  · cases h

/-- A create request leaving id, thresholds and enabled to be defaulted. -/
def sampleCreateRequest : CreateRuleRequest :=
  { id := none
    name := "basic"
    algorithm := AlgorithmType.sliding_window
    limit := 3
    window := 60
    keys := [{ type := KeyType.user, value := "*" }]
    webhookUrl := none
    thresholds := none
    enabled := none }

/-- The rule `createRule` builds from `sampleCreateRequest` with fresh id
`"u1"` at time 7. -/
def sampleCreatedRule : Rule :=
  { id := "u1"
    name := "basic"
    algorithm := AlgorithmType.sliding_window
    limit := 3
    window := 60
    keys := [{ type := KeyType.user, value := "*" }]
    webhookUrl := none
    thresholds := [80, 90, 100]
    enabled := true
    createdAt := some 7
    updatedAt := some 7 }

/-- Witness for C8: creating from an empty service state and reading back. -/
theorem createRule_roundtrip_witness :
    (RuleService.getRule
      { cache := [("u1", sampleCreatedRule)]
        store := [("rule:u1", sampleCreatedRule)] }
      sampleCreatedRule.id).1 = some sampleCreatedRule ∧
    sampleCreatedRule ∈ RuleService.getAllRules
      { cache := [("u1", sampleCreatedRule)]
        store := [("rule:u1", sampleCreatedRule)] } ∧
    sampleCreatedRule.thresholds = [80, 90, 100] ∧
    sampleCreatedRule.enabled = true := by
  have h := createRule_roundtrip { cache := [], store := [] }
    sampleCreateRequest "u1" 7 sampleCreatedRule
    { cache := [("u1", sampleCreatedRule)]
      store := [("rule:u1", sampleCreatedRule)] }
    (by decide)
  obtain ⟨hget, hmem, -, -, -, -, -, -, hth, hen, -, -, -⟩ := h
  exact ⟨hget, hmem, hth, hen⟩

end RateLimiter
